import Mathlib

/-!
Verification of the concurrency core of the `golang-course-ex-Mauro-MW`
repository: the token-bucket rate limiter (`esercizio-05-rate-limiter/main.go`),
the context-aware pipeline stage (`esercizio-08-context/main.go`), the fan-in
merger (`esercizio-10-pipeline/README.md`), and the worker pool
(`esercizio-06` / `src/unnamed/part_006`).

Each Go construct is shallowly embedded as an explicit state machine or a pure
list function; channel operations become guarded transitions (a channel receive
is atomic, so concurrent executions are interleavings of atomic steps).
-/

namespace TokenBucket

/-- State of `TokenBucketLimiter` (main.go lines 11-16): `tokens` is the number
of values buffered in the `tokens` channel (an `Int` so the lower bound `0 ≤`
is a real statement), `maxTokens` its capacity, and `stopped` records whether
`Stop` has stopped the ticker (after which the refill goroutine receives no
further ticks). -/
structure Limiter where
  tokens : Int
  maxTokens : Nat
  stopped : Bool
deriving Repr, DecidableEq

/-- `NewTokenBucketLimiter` (lines 63-87): the buffered channel is created with
capacity `maxTokens` and filled with `maxTokens` tokens; the ticker is running. -/
def NewTokenBucketLimiter (maxTokens : Nat) : Limiter :=
  { tokens := maxTokens, maxTokens := maxTokens, stopped := false }

/-- One tick of the refill goroutine (lines 77-84): `select` sends one token
into the channel if there is room, otherwise the `default` branch drops it.
A stopped ticker delivers no tick, so a tick on a stopped limiter is a no-op. -/
def refillTick (s : Limiter) : Limiter :=
  if s.stopped then s
  else if s.tokens < (s.maxTokens : Int) then { s with tokens := s.tokens + 1 }
  else s

/-- `Wait` (lines 89-91) is a bare channel receive `<-rl.tokens`: it completes
(consuming one token) exactly when a token is buffered, and otherwise blocks
(`none`). It consults nothing but the channel: no context, no `stopped` flag,
and it returns no error value. -/
def Wait (s : Limiter) : Option Limiter :=
  if 0 < s.tokens then some { s with tokens := s.tokens - 1 } else none

/-- One atomic attempt of the receive in `Wait`, exposing whether it succeeded.
A Go channel receive is atomic, so two concurrent `Wait` calls execute as the
two attempts in one of the two sequential orders. -/
def acquireAttempt (s : Limiter) : Bool × Limiter :=
  if 0 < s.tokens then (true, { s with tokens := s.tokens - 1 }) else (false, s)

/-- `TryWait` (lines 93-100): `select` between the token channel and
`time.After(timeout)`. `tokenFirst` is the oracle for which case the `select`
commits to: the token branch (only possible when a token is buffered) consumes
one token and returns `true`; the timeout branch consumes nothing and returns
`false`. -/
def TryWait (s : Limiter) (tokenFirst : Bool) : Bool × Limiter :=
  if tokenFirst = true ∧ 0 < s.tokens then (true, { s with tokens := s.tokens - 1 })
  else (false, s)

/-- `Stop` (lines 102-104) calls `rl.ticker.Stop()` and nothing else: no token
is added or removed, no channel is closed, no waiter is signalled. -/
def Stop (s : Limiter) : Limiter :=
  { s with stopped := true }

/-- The operations that touch the limiter state. -/
inductive Op where
  | acquire
  | refill
  | tryAcquire (tokenFirst : Bool)
  | stop
deriving Repr, DecidableEq

/-- Effect of one operation on the state; a blocked `acquire` leaves the state
unchanged (the caller is still waiting). -/
def step (s : Limiter) : Op → Limiter
  | Op.acquire => (acquireAttempt s).2
  | Op.refill => refillTick s
  | Op.tryAcquire b => (TryWait s b).2
  | Op.stop => Stop s

/-- Run a sequence of operations. -/
def run (s : Limiter) (ops : List Op) : Limiter :=
  ops.foldl step s

/-- Iterate the refill tick. -/
def refillTicks : Nat → Limiter → Limiter
  | 0, s => s
  | n + 1, s => refillTicks n (refillTick s)

/-- The bucket invariant `0 ≤ available ≤ capacity`. -/
def Inv (s : Limiter) : Prop :=
  0 ≤ s.tokens ∧ s.tokens ≤ (s.maxTokens : Int)

theorem step_maxTokens (s : Limiter) (op : Op) : (step s op).maxTokens = s.maxTokens := by
  cases op <;> simp only [step, acquireAttempt, refillTick, TryWait, Stop] <;>
    repeat first | rfl | split

theorem run_maxTokens (s : Limiter) (ops : List Op) : (run s ops).maxTokens = s.maxTokens := by
  induction ops generalizing s with
  | nil => rfl
  | cons op rest ih => simpa [run, List.foldl_cons, step_maxTokens] using ih (step s op)

theorem acquireAttempt_tokens (s : Limiter) :
    ((acquireAttempt s).2).tokens = if 0 < s.tokens then s.tokens - 1 else s.tokens := by
  simp only [acquireAttempt]
  split <;> rfl

theorem refillTick_tokens (s : Limiter) :
    (refillTick s).tokens =
      if s.stopped = false ∧ s.tokens < (s.maxTokens : Int) then s.tokens + 1 else s.tokens := by
  simp only [refillTick]
  rcases hs : s.stopped <;> simp [hs] <;> split <;> rfl

theorem tryWait_tokens (s : Limiter) (b : Bool) :
    ((TryWait s b).2).tokens =
      if b = true ∧ 0 < s.tokens then s.tokens - 1 else s.tokens := by
  simp only [TryWait]
  split <;> rfl

theorem step_tokens_cases (s : Limiter) (op : Op) :
    (step s op).tokens = s.tokens ∨
      ((step s op).tokens = s.tokens - 1 ∧ 0 < s.tokens) ∨
      ((step s op).tokens = s.tokens + 1 ∧ s.tokens < (s.maxTokens : Int)) := by
  cases op with
  | acquire =>
    rw [show step s Op.acquire = (acquireAttempt s).2 from rfl, acquireAttempt_tokens]
    split <;> simp <;> omega
  | refill =>
    rw [show step s Op.refill = refillTick s from rfl, refillTick_tokens]
    split <;> simp_all
  | tryAcquire b =>
    rw [show step s (Op.tryAcquire b) = (TryWait s b).2 from rfl, tryWait_tokens]
    split <;> simp_all
  | stop => exact Or.inl rfl

theorem inv_step (s : Limiter) (op : Op) (h : Inv s) : Inv (step s op) := by
  obtain ⟨h0, h1⟩ := h
  have hmax := step_maxTokens s op
  rcases step_tokens_cases s op with ht | ⟨ht, hp⟩ | ⟨ht, hp⟩ <;>
    exact ⟨by rw [ht]; omega, by rw [ht, hmax]; omega⟩

theorem inv_run (s : Limiter) (ops : List Op) (h : Inv s) : Inv (run s ops) := by
  induction ops generalizing s with
  | nil => exact h
  | cons op rest ih => exact ih (step s op) (inv_step s op h)

theorem refill_monotone (s : Limiter) :
    s.tokens ≤ (refillTick s).tokens ∧ (refillTick s).tokens ≤ s.tokens + 1 ∧
      (s.tokens ≤ (s.maxTokens : Int) → (refillTick s).tokens ≤ (s.maxTokens : Int)) := by
  rw [refillTick_tokens]
  split_ifs with h
  · obtain ⟨hs, hlt⟩ := h
    exact ⟨by omega, by omega, fun _ => by omega⟩
  · exact ⟨le_refl _, by omega, fun hh => hh⟩

theorem decrement_only_acquire (s : Limiter) (op : Op)
    (h : (step s op).tokens < s.tokens) :
    (op = Op.acquire ∨ ∃ b, op = Op.tryAcquire b) ∧ (step s op).tokens = s.tokens - 1 := by
  cases op with
  | acquire =>
    refine ⟨Or.inl rfl, ?_⟩
    rw [show step s Op.acquire = (acquireAttempt s).2 from rfl, acquireAttempt_tokens] at h ⊢
    split_ifs at h ⊢ with hc
    · rfl
    · omega
  | refill =>
    exact absurd h (not_lt.mpr (refill_monotone s).1)
  | tryAcquire b =>
    refine ⟨Or.inr ⟨b, rfl⟩, ?_⟩
    rw [show step s (Op.tryAcquire b) = (TryWait s b).2 from rfl, tryWait_tokens] at h ⊢
    split_ifs at h ⊢ with hc
    · rfl
    · omega
  | stop =>
    exact absurd h (by simp [step, Stop])

/-- C1: for every sequence of limiter operations from the initial state the
available token count satisfies `0 ≤ available ≤ capacity`; a refill tick
changes the count by at most `+1` and never past the capacity, and the count
drops only through a successful acquisition, which removes exactly one token. -/
theorem capacity_invariant (maxT : Nat) (ops : List Op) (s : Limiter) (op : Op)
    (hdec : (step s op).tokens < s.tokens) :
    (0 ≤ (run (NewTokenBucketLimiter maxT) ops).tokens ∧
      (run (NewTokenBucketLimiter maxT) ops).tokens ≤ (maxT : Int)) ∧
    (s.tokens ≤ (refillTick s).tokens ∧ (refillTick s).tokens ≤ s.tokens + 1 ∧
      (s.tokens ≤ (s.maxTokens : Int) → (refillTick s).tokens ≤ (s.maxTokens : Int))) ∧
    ((op = Op.acquire ∨ ∃ b, op = Op.tryAcquire b) ∧ (step s op).tokens = s.tokens - 1) := by
  refine ⟨?_, refill_monotone s, decrement_only_acquire s op hdec⟩
  have hinv : Inv (run (NewTokenBucketLimiter maxT) ops) :=
    inv_run _ ops ⟨Int.natCast_nonneg maxT, le_refl _⟩
  have hmax : (run (NewTokenBucketLimiter maxT) ops).maxTokens = maxT :=
    run_maxTokens _ ops
  have h2 := hinv.2
  rw [hmax] at h2
  exact ⟨hinv.1, h2⟩

theorem capacity_invariant_witness :
    (0 ≤ (run (NewTokenBucketLimiter 2) [Op.acquire, Op.refill, Op.refill]).tokens ∧
      (run (NewTokenBucketLimiter 2) [Op.acquire, Op.refill, Op.refill]).tokens ≤ (2 : Int)) ∧
    (step { tokens := 1, maxTokens := 2, stopped := false } Op.acquire).tokens =
      ({ tokens := 1, maxTokens := 2, stopped := false } : Limiter).tokens - 1 := by
  refine ⟨(capacity_invariant 2 [Op.acquire, Op.refill, Op.refill]
    { tokens := 1, maxTokens := 2, stopped := false } Op.acquire (by decide)).1, ?_⟩
  exact (capacity_invariant 2 [] { tokens := 1, maxTokens := 2, stopped := false }
    Op.acquire (by decide)).2.2.2

theorem refillTick_maxTokens (s : Limiter) : (refillTick s).maxTokens = s.maxTokens := by
  simp only [refillTick]
  split_ifs <;> rfl

theorem refillTicks_bounded (n : Nat) (s : Limiter) (h : s.tokens ≤ (s.maxTokens : Int)) :
    (refillTicks n s).tokens ≤ (s.maxTokens : Int) := by
  induction n generalizing s with
  | zero => exact h
  | succ k ih =>
    have h2 : (refillTick s).tokens ≤ ((refillTick s).maxTokens : Int) := by
      rw [refillTick_maxTokens]
      exact (refill_monotone s).2.2 h
    have h3 := ih (refillTick s) h2
    rw [refillTick_maxTokens] at h3
    exact h3

/-- C8: a refill tick on a running limiter adds exactly one token when the
bucket is below capacity, and leaves the count unchanged (the `select` falls
through to `default` and the token is dropped) when the bucket is already at
capacity — hence no number of consecutive ticks ever pushes the count beyond
the capacity. -/
theorem refill_policy (s : Limiter) (h : s.stopped = false) :
    (s.tokens < (s.maxTokens : Int) → refillTick s = { s with tokens := s.tokens + 1 }) ∧
    ((s.maxTokens : Int) ≤ s.tokens → refillTick s = s) ∧
    (∀ n, s.tokens ≤ (s.maxTokens : Int) → (refillTicks n s).tokens ≤ (s.maxTokens : Int)) := by
  refine ⟨fun hlt => ?_, fun hge => ?_, fun n hle => refillTicks_bounded n s hle⟩
  · simp [refillTick, h, hlt]
  · simp [refillTick, h, not_lt.mpr hge]

theorem refill_policy_witness :
    refillTick { tokens := 1, maxTokens := 3, stopped := false } =
      { tokens := 2, maxTokens := 3, stopped := false } ∧
    refillTick { tokens := 3, maxTokens := 3, stopped := false } =
      { tokens := 3, maxTokens := 3, stopped := false } ∧
    (refillTicks 7 { tokens := 1, maxTokens := 3, stopped := false }).tokens ≤ (3 : Int) := by
  refine ⟨?_, ?_, ?_⟩
  · have h := (refill_policy { tokens := 1, maxTokens := 3, stopped := false } rfl).1 (by decide)
    exact h.trans (by decide)
  · exact (refill_policy { tokens := 3, maxTokens := 3, stopped := false } rfl).2.1 (by decide)
  · exact (refill_policy { tokens := 1, maxTokens := 3, stopped := false } rfl).2.2 7 (by decide)

/-- C2 (amended): `Wait` is a bare channel receive: it blocks exactly when no
token is buffered, consumes exactly one token when it completes, and has no
cancellation path — its outcome is independent of the `stopped` flag, it
returns no error value, and once the limiter is stopped the refill tick is a
no-op, so a blocked caller is never unblocked. -/
theorem wait_semantics (s : Limiter) :
    (Wait s = none ↔ s.tokens ≤ 0) ∧
    (∀ t, Wait s = some t → t.tokens = s.tokens - 1) ∧
    Wait { s with stopped := true } = (Wait s).map (fun t => { t with stopped := true }) ∧
    (s.stopped = true → refillTick s = s) := by
  refine ⟨?_, ?_, ?_, fun hs => by simp [refillTick, hs]⟩
  · simp only [Wait]
    split_ifs with hc
    · exact ⟨fun hno => absurd hno (by simp), fun hle => absurd hle (not_le.mpr hc)⟩
    · exact ⟨fun _ => by omega, fun _ => rfl⟩
  · intro t ht
    simp only [Wait] at ht
    split_ifs at ht with hc
    cases ht
    rfl
  · obtain ⟨tk, m, st⟩ := s
    simp only [Wait]
    split_ifs <;> rfl

/-- C2 counterexample: on a stopped limiter with an empty bucket, `Wait` is
blocked (`none`) — there is no success and no cancellation-error return — and
the state is a fixpoint of the refill tick, so the caller blocks forever even
though the cancellation (`Stop`) has fired. -/
theorem wait_no_cancellation_cex :
    Wait (Stop { tokens := 0, maxTokens := 5, stopped := false }) = none ∧
    refillTick (Stop { tokens := 0, maxTokens := 5, stopped := false }) =
      Stop { tokens := 0, maxTokens := 5, stopped := false } := by
  constructor <;> decide

theorem wait_semantics_witness :
    Wait { tokens := 0, maxTokens := 4, stopped := false } = none ∧
    refillTick { tokens := 2, maxTokens := 4, stopped := true } =
      { tokens := 2, maxTokens := 4, stopped := true } := by
  constructor
  · exact (wait_semantics { tokens := 0, maxTokens := 4, stopped := false }).1.mpr (by decide)
  · exact (wait_semantics { tokens := 2, maxTokens := 4, stopped := true }).2.2.2 rfl

/-- C3 (amended): `Stop` only stops the refill ticker: it is idempotent, but it
does not unblock callers blocked in `Wait` — after `Stop` every refill tick is
a no-op, so a caller waiting on an empty bucket remains blocked forever rather
than being unblocked with a cancellation error. -/
theorem stop_idempotent_no_unblock (s : Limiter) :
    Stop (Stop s) = Stop s ∧
    (∀ n, refillTicks n (Stop s) = Stop s) ∧
    (s.tokens ≤ 0 → Wait (Stop s) = none) := by
  refine ⟨rfl, fun n => ?_, fun h => ?_⟩
  · induction n with
    | zero => rfl
    | succ k ih =>
      have h1 : refillTick (Stop s) = Stop s := by simp [refillTick, Stop]
      calc refillTicks (k + 1) (Stop s) = refillTicks k (refillTick (Stop s)) := rfl
        _ = refillTicks k (Stop s) := by rw [h1]
        _ = Stop s := ih
  · simp only [Wait, Stop]
    split_ifs with hc
    · exact absurd h (by simp at hc ⊢; omega)
    · rfl

/-- C3 counterexample: after `Stop` on a limiter with an empty bucket, a caller
blocked in `Wait` is still blocked (`none`) and further refill ticks change
nothing, refuting the claim that every blocked caller is unblocked with a
cancellation error. -/
theorem stop_leaves_callers_blocked_cex :
    Wait (Stop { tokens := 0, maxTokens := 3, stopped := false }) = none ∧
    run (Stop { tokens := 0, maxTokens := 3, stopped := false }) [Op.refill, Op.refill] =
      Stop { tokens := 0, maxTokens := 3, stopped := false } := by
  constructor <;> decide

theorem stop_idempotent_witness :
    Stop (Stop { tokens := 1, maxTokens := 2, stopped := false }) =
      Stop { tokens := 1, maxTokens := 2, stopped := false } ∧
    refillTicks 3 (Stop { tokens := 0, maxTokens := 2, stopped := false }) =
      Stop { tokens := 0, maxTokens := 2, stopped := false } ∧
    Wait (Stop { tokens := 0, maxTokens := 2, stopped := false }) = none :=
  ⟨(stop_idempotent_no_unblock { tokens := 1, maxTokens := 2, stopped := false }).1,
   (stop_idempotent_no_unblock { tokens := 0, maxTokens := 2, stopped := false }).2.1 3,
   (stop_idempotent_no_unblock { tokens := 0, maxTokens := 2, stopped := false }).2.2 (by decide)⟩

/-- C9: with exactly one token available, two concurrent `Wait` calls are two
atomic channel receives in some order; the first succeeds immediately and
consumes the token, the second finds the bucket empty and stays blocked, and
it can succeed only after a refill tick provides a new token. -/
theorem no_double_spend (s : Limiter) (h1 : s.tokens = 1) (h2 : s.stopped = false)
    (h3 : 0 < s.maxTokens) :
    (acquireAttempt s).1 = true ∧
    (acquireAttempt (acquireAttempt s).2).1 = false ∧
    ((acquireAttempt (acquireAttempt s).2).2).tokens = 0 ∧
    (acquireAttempt (refillTick (acquireAttempt (acquireAttempt s).2).2)).1 = true := by
  obtain ⟨tk, m, st⟩ := s
  simp only at h1 h2
  subst h1
  subst h2
  have hm : (0 : Int) < (m : Int) := by exact_mod_cast h3
  norm_num [acquireAttempt, refillTick, hm]

theorem no_double_spend_witness :
    (acquireAttempt { tokens := 1, maxTokens := 2, stopped := false }).1 = true ∧
    (acquireAttempt (acquireAttempt { tokens := 1, maxTokens := 2, stopped := false }).2).1 =
      false :=
  ⟨(no_double_spend { tokens := 1, maxTokens := 2, stopped := false } rfl rfl (by decide)).1,
   (no_double_spend { tokens := 1, maxTokens := 2, stopped := false } rfl rfl (by decide)).2.1⟩

/-- C10: a `TryWait` call that returns `false` (the timeout branch of the
select) leaves the bucket exactly as it was — no token is consumed — while a
`true` return consumes exactly one token and occurs only when a token was
available. -/
theorem tryWait_failure_no_consume (s : Limiter) (b : Bool) :
    ((TryWait s b).1 = false → (TryWait s b).2 = s) ∧
    ((TryWait s b).1 = true → ((TryWait s b).2).tokens = s.tokens - 1 ∧ 0 < s.tokens) := by
  simp only [TryWait]
  split_ifs with hc
  · exact ⟨fun hf => by simp at hf, fun _ => ⟨rfl, hc.2⟩⟩
  · exact ⟨fun _ => rfl, fun ht => by simp at ht⟩

theorem tryWait_witness :
    (TryWait { tokens := 0, maxTokens := 3, stopped := false } false).2 =
      { tokens := 0, maxTokens := 3, stopped := false } ∧
    ((TryWait { tokens := 2, maxTokens := 3, stopped := false } true).2).tokens = 1 := by
  constructor
  · exact (tryWait_failure_no_consume { tokens := 0, maxTokens := 3, stopped := false } false).1
      (by decide)
  · have h := ((tryWait_failure_no_consume { tokens := 2, maxTokens := 3, stopped := false }
      true).2 (by decide)).1
    exact h.trans (by decide)

end TokenBucket

namespace CtxPipeline

/-- The stage goroutine of `pipeline` (esercizio-08-context/main.go lines
98-113), iterating over the input slice from position `i`: at each element the
`select` either observes `ctx.Done()` and returns (ending the output), or
sends `number * 2`. `cancelled i` is the oracle for which branch the select at
iteration `i` commits to (the Done branch is selectable only once the context
is cancelled; an uncancelled run has `cancelled i = false` everywhere). -/
def pipelineFrom (cancelled : Nat → Bool) : Nat → List Int → List Int
  | _, [] => []
  | i, n :: rest =>
    if cancelled i = true then [] else n * 2 :: pipelineFrom cancelled (i + 1) rest

/-- `pipeline ctx nums`: the full output sequence collected from the returned
channel, which is closed by `defer close(out)` when the goroutine ends. -/
def pipeline (cancelled : Nat → Bool) (nums : List Int) : List Int :=
  pipelineFrom cancelled 0 nums

theorem pipelineFrom_no_cancel (cancelled : Nat → Bool)
    (h : ∀ i, cancelled i = false) (nums : List Int) :
    ∀ k, pipelineFrom cancelled k nums = nums.map (fun n => n * 2) := by
  induction nums with
  | nil => intro k; rfl
  | cons n rest ih =>
    intro k
    simp only [pipelineFrom, h k, List.map_cons]
    simp [ih (k + 1)]

/-- C5: with cancellation never triggered, the single-worker doubling stage
emits exactly the input values doubled, in input order — output order equals
input order within a single stage. -/
theorem pipeline_order_preservation (cancelled : Nat → Bool) (nums : List Int)
    (h : ∀ i, cancelled i = false) :
    pipeline cancelled nums = nums.map (fun n => n * 2) :=
  pipelineFrom_no_cancel cancelled h nums 0

theorem pipeline_order_preservation_witness :
    pipeline (fun _ => false) [1, 2, 3, 4, 5] = [2, 4, 6, 8, 10] := by
  have h := pipeline_order_preservation (fun _ => false) [1, 2, 3, 4, 5] (fun _ => rfl)
  exact h.trans (by decide)

end CtxPipeline

namespace WorkerPool

/-- Behaviour of one `task.Process(task.Data)` invocation (part_006 line 52):
a value, an error, or a runtime panic. -/
inductive ProcOutcome where
  | ok (v : Int)
  | err (e : String)
  | panicked (e : String)
deriving Repr, DecidableEq

/-- A `Task` (part_006 lines 8-12), with its process function pre-applied to
its data. -/
structure Task where
  id : Int
  outcome : ProcOutcome
deriving Repr, DecidableEq

/-- A `Result` (part_006 lines 14-18): `TaskID`, optional `Value`, optional
`Error`. -/
structure Result where
  taskID : Int
  value : Option Int
  error : Option String
deriving Repr, DecidableEq

/-- The result the worker loop body sends for one consumed task (line 53):
the task's id with the value and error returned by `Process`. -/
def mkResult (t : Task) : Result :=
  match t.outcome with
  | ProcOutcome.ok v => { taskID := t.id, value := some v, error := none }
  | ProcOutcome.err e => { taskID := t.id, value := none, error := some e }
  | ProcOutcome.panicked e => { taskID := -1, value := none, error := some ("panic: " ++ e) }

/-- The result emitted by the deferred `recover` handler (lines 46-50). -/
def panicResult (e : String) : Result :=
  { taskID := -1, value := none, error := some ("panic: " ++ e) }

/-- The worker loop body without the deferred recover (lines 51-54): the
results sent so far, and the panic that escapes the loop, if any. A `Process`
that returns an error still yields a normal `Result` and the loop continues
with the next task; a `Process` that panics aborts the loop. -/
def workerBody : List Task → List Result × Option String
  | [] => ([], none)
  | t :: rest =>
    match t.outcome with
    | ProcOutcome.ok v =>
      ({ taskID := t.id, value := some v, error := none } :: (workerBody rest).1,
        (workerBody rest).2)
    | ProcOutcome.err e =>
      ({ taskID := t.id, value := none, error := some e } :: (workerBody rest).1,
        (workerBody rest).2)
    | ProcOutcome.panicked e => ([], some e)

/-- `worker` (lines 44-55): the loop wrapped in the deferred `recover`, which
turns an escaping panic into one final error `Result`; the worker goroutine
itself returns normally in every case. -/
def worker (ts : List Task) : List Result :=
  match (workerBody ts).2 with
  | none => (workerBody ts).1
  | some e => (workerBody ts).1 ++ [panicResult e]

/-- The tasks the worker actually consumes from the channel: everything up to
and including the first panicking task (after the recover fires, the worker
has returned and reads no further task). -/
def consumed : List Task → List Task
  | [] => []
  | t :: rest =>
    match t.outcome with
    | ProcOutcome.panicked _ => [t]
    | _ => t :: consumed rest

/-- Each of the pool's workers (started in `Start`, lines 37-42) runs `worker`
on the sub-sequence of tasks the shared channel delivers to it. -/
def poolRun (shares : List (List Task)) : List (List Result) :=
  shares.map worker

theorem worker_cons_ok (t : Task) (rest : List Task) (v : Int)
    (h : t.outcome = ProcOutcome.ok v) :
    worker (t :: rest) = { taskID := t.id, value := some v, error := none } :: worker rest := by
  simp only [worker, workerBody, h]
  cases hb : (workerBody rest).2 <;> simp [hb]

theorem worker_cons_err (t : Task) (rest : List Task) (e : String)
    (h : t.outcome = ProcOutcome.err e) :
    worker (t :: rest) = { taskID := t.id, value := none, error := some e } :: worker rest := by
  simp only [worker, workerBody, h]
  cases hb : (workerBody rest).2 <;> simp [hb]

theorem worker_cons_panic (t : Task) (rest : List Task) (e : String)
    (h : t.outcome = ProcOutcome.panicked e) :
    worker (t :: rest) = [panicResult e] := by
  simp [worker, workerBody, h]

theorem worker_eq_map_consumed (ts : List Task) :
    worker ts = (consumed ts).map mkResult := by
  induction ts with
  | nil => rfl
  | cons t rest ih =>
    cases h : t.outcome with
    | ok v => rw [worker_cons_ok t rest v h, ih]; simp [consumed, h, mkResult]
    | err e => rw [worker_cons_err t rest e h, ih]; simp [consumed, h, mkResult]
    | panicked e => rw [worker_cons_panic t rest e h]; simp [consumed, h, mkResult, panicResult]

/-- C6: a worker emits exactly one `Result` per task it consumes (the emitted
sequence is precisely the consumed tasks mapped to their results), and a task
whose `Process` returns an error yields a `Result` carrying that error while
the worker goes on to consume the remaining tasks. -/
theorem one_result_per_consumed_item (ts : List Task) (t : Task) (rest : List Task)
    (e : String) (he : t.outcome = ProcOutcome.err e) :
    worker ts = (consumed ts).map mkResult ∧
    worker (t :: rest) = { taskID := t.id, value := none, error := some e } :: worker rest :=
  ⟨worker_eq_map_consumed ts, worker_cons_err t rest e he⟩

theorem one_result_per_consumed_item_witness :
    worker [{ id := 1, outcome := ProcOutcome.ok 2 }] =
      (consumed [{ id := 1, outcome := ProcOutcome.ok 2 }]).map mkResult ∧
    worker [{ id := 3, outcome := ProcOutcome.err "bad" }, { id := 4, outcome := ProcOutcome.ok 9 }] =
      { taskID := 3, value := none, error := some "bad" } ::
        worker [{ id := 4, outcome := ProcOutcome.ok 9 }] :=
  one_result_per_consumed_item [{ id := 1, outcome := ProcOutcome.ok 2 }]
    { id := 3, outcome := ProcOutcome.err "bad" } [{ id := 4, outcome := ProcOutcome.ok 9 }]
    "bad" rfl

/-- C7: whenever the loop body would let a panic escape, the deferred `recover`
at the worker boundary converts it into one final `Result` whose error field is
populated with the panic message, and the worker returns normally; moreover a
worker's output depends only on its own task share, so a panic in one worker
leaves every sibling worker's output untouched. -/
theorem panic_containment (ts : List Task) (e : String) (h : (workerBody ts).2 = some e)
    (shares : List (List Task)) (j : Nat) :
    worker ts = (workerBody ts).1 ++ [panicResult e] ∧
    (panicResult e).error = some ("panic: " ++ e) ∧
    (poolRun shares)[j]? = (shares[j]?).map worker := by
  refine ⟨by simp [worker, h], rfl, ?_⟩
  induction shares generalizing j with
  | nil => simp [poolRun]
  | cons a l ih =>
    cases j with
    | zero => simp [poolRun]
    | succ k => simpa [poolRun] using ih k

theorem panic_containment_witness :
    worker [{ id := 1, outcome := ProcOutcome.ok 5 }, { id := 2, outcome := ProcOutcome.panicked "boom" }] =
      (workerBody [{ id := 1, outcome := ProcOutcome.ok 5 }, { id := 2, outcome := ProcOutcome.panicked "boom" }]).1
        ++ [panicResult "boom"] ∧
    (panicResult "boom").error = some ("panic: " ++ "boom") ∧
    (poolRun [[{ id := 7, outcome := ProcOutcome.ok 1 }]])[0]? =
      (([[{ id := 7, outcome := ProcOutcome.ok 1 }]] : List (List Task))[0]?).map worker :=
  panic_containment
    [{ id := 1, outcome := ProcOutcome.ok 5 }, { id := 2, outcome := ProcOutcome.panicked "boom" }]
    "boom" rfl [[{ id := 7, outcome := ProcOutcome.ok 1 }]] 0

end WorkerPool

namespace FanIn

/-- One `multiplex` goroutine of `fanIn` (esercizio-10-pipeline/README.md lines
148-177) together with its source channel: `pending` holds the items the
source will still deliver, `closed` records that the source channel has been
closed by its producer, and `exited` that the goroutine has returned (running
its deferred `wg.Done()`). -/
structure Mux where
  pending : List Int
  closed : Bool
  exited : Bool
deriving Repr, DecidableEq

/-- Global state of one `fanIn` call: the multiplexers with their sources, the
items forwarded to the merged channel, whether `close(out)` has run, and
whether the shared context has been cancelled. -/
structure FState where
  muxes : List Mux
  merged : List Int
  mergedClosed : Bool
  cancelled : Bool
deriving Repr, DecidableEq

/-- Atomic events of a `fanIn` execution. -/
inductive Ev where
  | forward (i : Nat)
  | closeSrc (i : Nat)
  | exitClosed (i : Nat)
  | exitCancel (i : Nat)
  | cancel
  | closeOut
deriving Repr, DecidableEq

/-- Transition function; an event whose guard does not hold is a no-op (the
corresponding goroutine is simply not at that point).

  * `forward i`: multiplexer `i` receives the next item of its source and the
    `select` commits to `out <- val`.
  * `closeSrc i`: the producer of source `i`, having delivered everything,
    closes it (`defer close(out)` in the upstream worker).
  * `exitClosed i`: `range c` ends because source `i` is closed and drained;
    the goroutine returns, running `wg.Done()`.
  * `exitCancel i`: multiplexer `i` has received an item, the context is
    cancelled, and the `select` commits to `<-ctx.Done()`: the goroutine
    returns, dropping the item.
  * `cancel`: the shared context is cancelled.
  * `closeOut`: the closer goroutine passes `wg.Wait()` — possible only when
    every multiplexer has exited — and runs `close(out)`. -/
def step (s : FState) : Ev → FState
  | Ev.forward i =>
    match s.muxes[i]? with
    | some m =>
      if m.exited = true then s
      else
        match m.pending with
        | [] => s
        | x :: rest =>
          { s with muxes := s.muxes.set i { m with pending := rest },
                   merged := s.merged ++ [x] }
    | none => s
  | Ev.closeSrc i =>
    match s.muxes[i]? with
    | some m =>
      if m.pending = [] ∧ m.closed = false then
        { s with muxes := s.muxes.set i { m with closed := true } }
      else s
    | none => s
  | Ev.exitClosed i =>
    match s.muxes[i]? with
    | some m =>
      if m.closed = true ∧ m.pending = [] ∧ m.exited = false then
        { s with muxes := s.muxes.set i { m with exited := true } }
      else s
    | none => s
  | Ev.exitCancel i =>
    match s.muxes[i]? with
    | some m =>
      match m.pending with
      | [] => s
      | _ :: rest =>
        if s.cancelled = true ∧ m.exited = false then
          { s with muxes := s.muxes.set i { m with pending := rest, exited := true } }
        else s
    | none => s
  | Ev.cancel => { s with cancelled := true }
  | Ev.closeOut =>
    if s.muxes.all (fun m => m.exited) = true ∧ s.mergedClosed = false then
      { s with mergedClosed := true }
    else s

/-- Initial state of `fanIn` applied to sources that will deliver the given
item sequences: no source closed, no goroutine exited, nothing merged. -/
def start (scripts : List (List Int)) : FState :=
  { muxes := scripts.map (fun p => { pending := p, closed := false, exited := false }),
    merged := [], mergedClosed := false, cancelled := false }

/-- Run a sequence of events. -/
def runF (s : FState) (es : List Ev) : FState :=
  es.foldl step s

/-- Invariant of executions in which the context is never cancelled. -/
def GoodU (s : FState) : Prop :=
  s.cancelled = false ∧
  (∀ m ∈ s.muxes, m.exited = true → m.closed = true) ∧
  (s.mergedClosed = true → ∀ m ∈ s.muxes, m.exited = true)

theorem mem_of_idx {α : Type} (l : List α) (i : Nat) (a : α) (h : l[i]? = some a) :
    a ∈ l := by
  induction l generalizing i with
  | nil => simp at h
  | cons x xs ih =>
    cases i with
    | zero =>
      simp only [List.getElem?_cons_zero, Option.some.injEq] at h
      exact h ▸ List.mem_cons_self x xs
    | succ n =>
      simp only [List.getElem?_cons_succ] at h
      exact List.mem_cons_of_mem x (ih n h)

theorem mem_set_cases {α : Type} (l : List α) (i : Nat) (b a : α) (h : a ∈ l.set i b) :
    a ∈ l ∨ a = b := by
  induction l generalizing i with
  | nil => simp at h
  | cons x xs ih =>
    cases i with
    | zero =>
      rcases List.mem_cons.mp h with h1 | h1
      · exact Or.inr h1
      · exact Or.inl (List.mem_cons_of_mem x h1)
    | succ n =>
      rcases List.mem_cons.mp h with h1 | h1
      · exact Or.inl (h1 ▸ List.mem_cons_self x xs)
      · rcases ih n h1 with h2 | h2
        · exact Or.inl (List.mem_cons_of_mem x h2)
        · exact Or.inr h2

theorem start_goodU (scripts : List (List Int)) : GoodU (start scripts) := by
  refine ⟨rfl, ?_, fun h => by simp [start] at h⟩
  intro m hm hex
  rcases List.mem_map.mp hm with ⟨p, _, rfl⟩
  simp at hex

theorem goodU_step (s : FState) (e : Ev) (he : e ≠ Ev.cancel) (h : GoodU s) :
    GoodU (step s e) := by
  obtain ⟨hc, hec, hmc⟩ := h
  cases e with
  | cancel => exact absurd rfl he
  | forward i =>
    rcases hm : s.muxes[i]? with _ | m
    · simpa [step, hm] using ⟨hc, hec, hmc⟩
    · simp only [step, hm]
      split_ifs with hex
      · exact ⟨hc, hec, hmc⟩
      · rcases hp : m.pending with _ | ⟨x, rest⟩
        · exact ⟨hc, hec, hmc⟩
        · refine ⟨hc, ?_, ?_⟩
          · intro m2 hm2 hex2
            rcases mem_set_cases _ _ _ _ hm2 with h2 | h2
            · exact hec m2 h2 hex2
            · subst h2
              exact hec m (mem_of_idx _ _ _ hm) hex2
          · intro hmcl
            have := hmc hmcl m (mem_of_idx _ _ _ hm)
            exact absurd this hex
  | closeSrc i =>
    rcases hm : s.muxes[i]? with _ | m
    · simpa [step, hm] using ⟨hc, hec, hmc⟩
    · simp only [step, hm]
      split_ifs with hg
      · refine ⟨hc, ?_, ?_⟩
        · intro m2 hm2 hex2
          rcases mem_set_cases _ _ _ _ hm2 with h2 | h2
          · exact hec m2 h2 hex2
          · subst h2; rfl
        · intro hmcl m2 hm2
          rcases mem_set_cases _ _ _ _ hm2 with h2 | h2
          · exact hmc hmcl m2 h2
          · subst h2
            exact hmc hmcl m (mem_of_idx _ _ _ hm)
      · exact ⟨hc, hec, hmc⟩
  | exitClosed i =>
    rcases hm : s.muxes[i]? with _ | m
    · simpa [step, hm] using ⟨hc, hec, hmc⟩
    · simp only [step, hm]
      split_ifs with hg
      · refine ⟨hc, ?_, ?_⟩
        · intro m2 hm2 hex2
          rcases mem_set_cases _ _ _ _ hm2 with h2 | h2
          · exact hec m2 h2 hex2
          · subst h2
            exact hg.1
        · intro hmcl m2 hm2
          rcases mem_set_cases _ _ _ _ hm2 with h2 | h2
          · exact hmc hmcl m2 h2
          · subst h2; rfl
      · exact ⟨hc, hec, hmc⟩
  | exitCancel i =>
    rcases hm : s.muxes[i]? with _ | m
    · simpa [step, hm] using ⟨hc, hec, hmc⟩
    · simp only [step, hm]
      rcases hp : m.pending with _ | ⟨x, rest⟩
      · exact ⟨hc, hec, hmc⟩
      · have hno : ¬(s.cancelled = true ∧ m.exited = false) := by
          intro hand
          rw [hc] at hand
          exact absurd hand.1 (by simp)
        simpa [hno] using (⟨hc, hec, hmc⟩ : GoodU s)
  | closeOut =>
    simp only [step]
    split_ifs with hg
    · refine ⟨hc, hec, fun _ => ?_⟩
      intro m2 hm2
      exact List.all_eq_true.mp hg.1 m2 hm2
    · exact ⟨hc, hec, hmc⟩

theorem goodU_run (s : FState) (es : List Ev) (hne : ∀ e ∈ es, e ≠ Ev.cancel)
    (h : GoodU s) : GoodU (runF s es) := by
  induction es generalizing s with
  | nil => exact h
  | cons e rest ih =>
    exact ih (step s e) (fun x hx => hne x (List.mem_cons_of_mem e hx))
      (goodU_step s e (hne e (List.mem_cons_self e rest)) h)

/-- C4 (amended): in every `fanIn` execution in which the context is never
cancelled, the merged output is closed only after every source channel has
closed and every multiplexer has exited, and once every multiplexer has exited
the closer goroutine's `close(out)` step does close it; under cancellation,
by contrast, the merged output may close while a source is still open (see the
counterexample). -/
theorem fanin_closure (scripts : List (List Int)) (es : List Ev)
    (hnc : Ev.cancel ∉ es) :
    ((runF (start scripts) es).mergedClosed = true →
      ∀ m ∈ (runF (start scripts) es).muxes, m.closed = true ∧ m.exited = true) ∧
    ((∀ m ∈ (runF (start scripts) es).muxes, m.exited = true) →
      (step (runF (start scripts) es) Ev.closeOut).mergedClosed = true) := by
  have hg : GoodU (runF (start scripts) es) :=
    goodU_run _ es (fun e hee hcancel => hnc (hcancel ▸ hee)) (start_goodU scripts)
  obtain ⟨hc, hec, hmc⟩ := hg
  constructor
  · intro hm m hmem
    exact ⟨hec m hmem (hmc hm m hmem), hmc hm m hmem⟩
  · intro hall
    have hallb : (runF (start scripts) es).muxes.all (fun m => m.exited) = true :=
      List.all_eq_true.mpr hall
    simp only [step]
    rcases hmcl : (runF (start scripts) es).mergedClosed with _ | _
    · rw [if_pos ⟨hallb, rfl⟩]
    · split_ifs <;> simp [hmcl]

/-- C4 counterexample: two sources, the first exhausted and closed, the second
still open with one item to deliver; the context is cancelled, both
multiplexers exit, and `close(out)` runs: the merged output is closed while
source 1 is still open (`closed = false`), refuting the unconditional claim
that the merged output closes only if all sources have closed. -/
theorem fanin_closes_before_sources_cex :
    (runF (start [[], [7]])
        [Ev.closeSrc 0, Ev.exitClosed 0, Ev.cancel, Ev.exitCancel 1, Ev.closeOut]).mergedClosed =
      true ∧
    (runF (start [[], [7]])
        [Ev.closeSrc 0, Ev.exitClosed 0, Ev.cancel, Ev.exitCancel 1, Ev.closeOut]).muxes[1]? =
      some { pending := [], closed := false, exited := true } := by
  constructor <;> decide

theorem fanin_closure_witness :
    (step (runF (start [[3]]) [Ev.forward 0, Ev.closeSrc 0, Ev.exitClosed 0])
        Ev.closeOut).mergedClosed = true ∧
    ({ pending := [], closed := true, exited := true } : Mux).closed = true := by
  constructor
  · exact (fanin_closure [[3]] [Ev.forward 0, Ev.closeSrc 0, Ev.exitClosed 0]
      (by decide)).2 (by decide)
  · exact ((fanin_closure [[3]] [Ev.forward 0, Ev.closeSrc 0, Ev.exitClosed 0, Ev.closeOut]
      (by decide)).1 (by decide)
      { pending := [], closed := true, exited := true } (by decide)).1

end FanIn
